import Mathlib

/-!
Verification of the Sera-Docs backend (RAG ingestion/retrieval pipeline).

Shallow embedding of the Python sources:
  * `backend/app/services/document_processor.py` — whitespace tokenizer and
    the sliding-window chunker `create_chunks`;
  * `backend/app/services/vector_store.py` — FAISS-backed store:
    `add_documents`, `search`, `clear`, `load`, `get_stats`;
  * `backend/app/services/generation.py` — `generate_response` and its
    fallback paths;
  * `backend/app/core/config.py` — `Settings` (pydantic, no validators on
    the chunking fields);
  * `backend/app/main.py` — the `/api/query` and `/api/status` handlers.

Python machine-level details are modelled as follows: Python `int` is `Int`
(arbitrary precision in Python, so no wrap-around), float arithmetic on
FAISS distances is modelled over `ℚ` (exact arithmetic; the properties
proved are order/counting properties that do not depend on rounding),
functions that can raise return `Except String`, and the external
sentence-transformer embedding model is an uninterpreted parameter
`embed : String → Vec`.
-/

/-- Python `str.split()` splits on ASCII whitespace: space, tab, newline,
carriage return, vertical tab, form feed (Unicode whitespace beyond these is
not needed by the texts in this development). -/
def pyIsSpace (c : Char) : Bool :=
  c = ' ' || c = '\t' || c = '\n' || c = '\r' || c = '\x0b' || c = '\x0c'

/-- Worker for `pySplit`: walks the characters, accumulating the current
token reversed, emitting it at each whitespace run or at the end. -/
def pySplitAux : List Char → List Char → List String
  | [], acc => if acc.isEmpty then [] else [String.mk acc.reverse]
  | c :: cs, acc =>
    if pyIsSpace c then
      if acc.isEmpty then pySplitAux cs []
      else String.mk acc.reverse :: pySplitAux cs []
    else pySplitAux cs (c :: acc)

/-- Python `text.split()` (no separator argument): maximal runs of
non-whitespace characters; never yields an empty token. -/
def pySplit (s : String) : List String := pySplitAux s.data []

/-- Python `" ".join(words)`. -/
def joinSpace : List String → String
  | [] => ""
  | [w] => w
  | w :: ws => w ++ " " ++ joinSpace ws

/-- Python `s.strip()`: remove leading and trailing whitespace. -/
def pyStrip (s : String) : String :=
  String.mk ((s.data.dropWhile pyIsSpace).reverse.dropWhile pyIsSpace).reverse

/-- Python list slicing `xs[lo:hi]` (step 1): negative bounds count from the
end, out-of-range bounds are clamped. -/
def pySlice {α : Type} (xs : List α) (lo hi : Int) : List α :=
  let n : Int := xs.length
  let lo' : Nat := (if lo < 0 then n + lo else lo).toNat
  let hi' : Nat := (if hi < 0 then n + hi else hi).toNat
  (xs.take hi').drop lo'

/-- Python `range(0, stop, step)` for a positive step: the multiples of
`step` below `stop`, in increasing order (`⌈stop/step⌉` of them). -/
def pyStarts (stop step : Nat) : List Nat :=
  (List.range ((stop + step - 1) / step)).map (fun k => k * step)

/-- `config.py` `Settings`: the fields this development needs. pydantic
declares `chunk_size`/`chunk_overlap` as plain ints with defaults 500/100 and
attaches no validator or constraint to them. -/
structure Settings where
  gemini_api_key : String
  embedding_model : String
  chunk_size : Int
  chunk_overlap : Int
  top_k_results : Int

/-- Construction of `Settings` (`settings = Settings()` with the chunking
fields possibly overridden from the environment): pydantic checks only that
the two fields are ints, so construction succeeds for every pair of ints.
`Option` marks where a pydantic `ValidationError` would abort startup. -/
def Settings.construct (chunk_size chunk_overlap : Int) : Option Settings :=
  some { gemini_api_key := ""
         embedding_model := "all-MiniLM-L6-v2"
         chunk_size := chunk_size
         chunk_overlap := chunk_overlap
         top_k_results := 5 }

/-- `document_processor.py` `DocumentProcessor`: holds the chunking
configuration copied from settings. -/
structure DocumentProcessor where
  chunk_size : Int
  chunk_overlap : Int

/-- `DocumentProcessor.__init__`: copies `settings.chunk_size` and
`settings.chunk_overlap`; performs no validation, so it succeeds on every
settings object (`Option` marks where a constructor exception would go). -/
def DocumentProcessor.ofSettings (s : Settings) : Option DocumentProcessor :=
  some { chunk_size := s.chunk_size, chunk_overlap := s.chunk_overlap }

/-- The base metadata dict built by `process_document`. -/
structure Metadata where
  filename : String
  file_type : String
  file_path : String

/-- The per-chunk metadata dict `{**metadata, chunk_index, start_index,
end_index}` built by `create_chunks`. -/
structure ChunkMeta where
  filename : String
  file_type : String
  file_path : String
  chunk_index : Nat
  start_index : Nat
  end_index : Int
deriving DecidableEq

/-- A chunk dict as built by `create_chunks`: `chunk_id` (md5 of the
content), `content`, `metadata`. -/
structure Chunk where
  chunk_id : String
  content : String
  metadata : ChunkMeta
deriving DecidableEq

/-- The body of the `for i in range(...)` loop of `create_chunks`: slice the
window `words[i : i + chunk_size]`, join it with spaces, keep it unless the
stripped text is empty; `nchunks` is `len(chunks)` so far (it becomes the
kept chunk's `chunk_index`). `hash` stands for `hashlib.md5(...).hexdigest()`,
an uninterpreted deterministic function of the content. -/
def createChunksLoop (hash : String → String) (dp : DocumentProcessor)
    (words : List String) (md : Metadata) : List Nat → Nat → List Chunk
  | [], _ => []
  | i :: rest, nchunks =>
    let chunk_words := pySlice words (Int.ofNat i) (Int.ofNat i + dp.chunk_size)
    let chunk_text := joinSpace chunk_words
    if pyStrip chunk_text = "" then createChunksLoop hash dp words md rest nchunks
    else
      { chunk_id := hash chunk_text
        content := chunk_text
        metadata :=
          { filename := md.filename
            file_type := md.file_type
            file_path := md.file_path
            chunk_index := nchunks
            start_index := i
            end_index := min (Int.ofNat i + dp.chunk_size) (Int.ofNat words.length) } }
        :: createChunksLoop hash dp words md rest (nchunks + 1)

/-- `DocumentProcessor.create_chunks(text, metadata)`. The Python loop is
`for i in range(0, len(words), self.chunk_size - self.chunk_overlap)`:
`range` raises `ValueError` when the step is zero (modelled as
`Except.error`), iterates zero times when the step is negative, and
otherwise visits `0, step, 2*step, …` below `len(words)`. -/
def DocumentProcessor.create_chunks (hash : String → String) (dp : DocumentProcessor)
    (text : String) (md : Metadata) : Except String (List Chunk) :=
  let words := pySplit text
  let step : Int := dp.chunk_size - dp.chunk_overlap
  if step = 0 then Except.error "ValueError: range() arg 3 must not be zero"
  else if step < 0 then Except.ok []
  else Except.ok (createChunksLoop hash dp words md (pyStarts words.length step.toNat) 0)

/-- An embedding vector (`vector_store.py` works with float32 rows; modelled
as exact rationals, which preserves the order and counting structure). -/
abbrev Vec := List ℚ

/-- Squared L2 distance, what `faiss.IndexFlatL2.search` ranks by (FAISS
reports squared distances; the similarity conversion below is applied to the
reported value either way). -/
def l2sq (q v : Vec) : ℚ :=
  (List.zipWith (fun a b => (a - b) * (a - b)) q v).sum

/-- Insert one `(position, distance)` pair into a list sorted by ascending
distance, before any strictly larger distance (ties keep scan order). -/
def insertByDist (p : Nat × ℚ) : List (Nat × ℚ) → List (Nat × ℚ)
  | [] => [p]
  | q :: qs => if p.2 ≤ q.2 then p :: q :: qs else q :: insertByDist p qs

/-- Sort `(position, distance)` pairs by ascending distance. -/
def sortByDist : List (Nat × ℚ) → List (Nat × ℚ)
  | [] => []
  | p :: ps => insertByDist p (sortByDist ps)

/-- Model of `faiss.IndexFlatL2.search` restricted to one query: exact
nearest-neighbor search returning the `k` stored positions closest to `q`
with their distances, ascending. -/
def faissSearch (vecs : List Vec) (q : Vec) (k : Nat) : List (Nat × ℚ) :=
  (sortByDist ((vecs.map (fun v => l2sq q v)).enum)).take k

/-- `vector_store.py` `VectorStore`: the FAISS index contents (in insertion
order, so `index.length` is `index.ntotal`), the parallel `documents` list,
and the embedding dimension captured at construction. -/
structure VectorStore where
  dimension : Nat
  index : List Vec
  documents : List Chunk

/-- `VectorStore.add_documents(chunks)`: empty input short-circuits to 0;
otherwise one embedding per chunk content is appended to the index, the
chunks are appended to `documents`, and the chunk count is returned
(`save()` touches only the disk artifacts, not this state). -/
def VectorStore.add_documents (embed : String → Vec) (vs : VectorStore)
    (chunks : List Chunk) : VectorStore × Nat :=
  if chunks.isEmpty then (vs, 0)
  else
    ({ vs with
        index := vs.index ++ chunks.map (fun c => embed c.content)
        documents := vs.documents ++ chunks },
      chunks.length)

/-- A search result: a copy of the stored chunk dict with the added
`similarity_score` key. -/
structure SearchResult where
  chunk : Chunk
  similarity_score : ℚ
deriving DecidableEq

/-- The distance→similarity conversion of `search`:
`result["similarity_score"] = float(1 / (1 + dist))`. -/
def simOfDist (d : ℚ) : ℚ := 1 / (1 + d)

/-- The result loop of `search`: for each `(idx, dist)` pair returned by the
index, keep it only when `idx < len(self.documents)`, looking the document
up at `idx` (in Lean the lookup carries its bound, so it is total by
construction) and attaching the converted similarity. -/
def searchLoop (docs : List Chunk) : List (Nat × ℚ) → List SearchResult
  | [] => []
  | (idx, dist) :: rest =>
    if h : idx < docs.length then
      { chunk := docs.get ⟨idx, h⟩, similarity_score := simOfDist dist }
        :: searchLoop docs rest
    else searchLoop docs rest

/-- `VectorStore.search(query, top_k)`: empty index returns `[]` at once;
otherwise the query is embedded, `k = min(top_k, ntotal)` neighbors are
fetched, and the result loop resolves positions to documents. -/
def VectorStore.search (embed : String → Vec) (vs : VectorStore)
    (query : String) (top_k : Nat) : List SearchResult :=
  if vs.index.length = 0 then []
  else
    let query_embedding := embed query
    let k := min top_k vs.index.length
    searchLoop vs.documents (faissSearch vs.index query_embedding k)

/-- `VectorStore.clear()`: fresh empty index (same dimension), empty
document list (the artifact files are also unlinked; disk state is modelled
only where `load` consumes it). -/
def VectorStore.clear (vs : VectorStore) : VectorStore :=
  { vs with index := [], documents := [] }

/-- `get_stats()` return value. -/
structure Stats where
  total_documents : Nat
  index_size : Nat
  embedding_model : String
  dimension : Nat

/-- `VectorStore.get_stats()`. -/
def VectorStore.get_stats (model_name : String) (vs : VectorStore) : Stats :=
  { total_documents := vs.documents.length
    index_size := vs.index.length
    embedding_model := model_name
    dimension := vs.dimension }

/-- The two persisted artifacts as `load()` sees them: whether each file
exists, and what deserializing each yields (`Except.error` models
`faiss.read_index` or `pickle.load` raising on corrupt bytes). -/
structure StoredArtifacts where
  faiss_exists : Bool
  docs_exists : Bool
  faiss_read : Except String (List Vec)
  docs_read : Except String (List Chunk)

/-- `VectorStore.load()`: when both artifacts exist, read the index and then
the documents inside one `try`; any exception resets both structures to
empty (`IndexFlatL2(self.dimension)` and `[]`) and falls through to
`return False`. When either file is missing the store is left untouched and
`False` is returned. -/
def VectorStore.load (vs : VectorStore) (fs : StoredArtifacts) :
    VectorStore × Bool :=
  if fs.faiss_exists && fs.docs_exists then
    match fs.faiss_read with
    | Except.error _ => ({ vs with index := [], documents := [] }, false)
    | Except.ok idx =>
      match fs.docs_read with
      | Except.error _ => ({ vs with index := [], documents := [] }, false)
      | Except.ok docs => ({ vs with index := idx, documents := docs }, true)
  else (vs, false)

/-- A mutating operation on the store, for stating the alignment invariant
over arbitrary interleavings. -/
inductive StoreOp where
  | add (chunks : List Chunk)
  | clear

/-- Apply one operation. -/
def applyOp (embed : String → Vec) (vs : VectorStore) : StoreOp → VectorStore
  | StoreOp.add chunks => (vs.add_documents embed chunks).1
  | StoreOp.clear => vs.clear

/-- The store as `__init__` leaves it when no artifacts are on disk: empty
index of the captured dimension, empty document list. -/
def emptyStore (dim : Nat) : VectorStore :=
  { dimension := dim, index := [], documents := [] }

/-- Run a sequence of `add_documents`/`clear` operations from the empty
store. -/
def applyOps (embed : String → Vec) (dim : Nat) (ops : List StoreOp) : VectorStore :=
  ops.foldl (applyOp embed) (emptyStore dim)

/-- `generation.py` `GenerationService` as `__init__` leaves it: the model
handle is set iff `settings.gemini_api_key` is a non-empty string (Python
truthiness of the key). The Gemini call itself is external; its outcome for
a given prompt is the uninterpreted parameter `call` below. -/
def GenerationService.modelConfigured (s : Settings) : Bool :=
  s.gemini_api_key ≠ ""

/-- `GenerationService._format_context(chunks)`: numbered `[Source i: name]`
blocks joined by blank lines (the dict's `filename` key is always present on
chunks produced by this pipeline, so the `.get` default is not taken). -/
def format_context (chunks : List SearchResult) : String :=
  if chunks.isEmpty then "No relevant context found."
  else
    String.intercalate "\n"
      ((chunks.enum).map (fun p =>
        "[Source " ++ toString (p.1 + 1) ++ ": " ++ p.2.chunk.metadata.filename
          ++ "]\n" ++ p.2.chunk.content ++ "\n"))

/-- `GenerationService._create_prompt(query, context)`: the Sera persona
template with the context and query spliced in (the literal prose between
the splice points is semantically inert here and kept in two blocks). -/
def create_prompt (query context : String) : String :=
  "You are Sera, a warm, intelligent, and caring AI companion." ++
  " Use the following context to answer the user question." ++
  "\n\nContext:\n" ++ context ++
  "\n\nUser Question: " ++ query ++
  "\n\nPersonality Guidelines and Response Instructions follow.\n\nYour response:"

/-- `GenerationService.generate_response(query, context_chunks, max_tokens)`:
returns the configuration fallback when no model handle is set; otherwise
formats the context, builds the prompt and calls the model inside a
`try/except` whose handler returns an error string — so the function
returns a `String` on every path and never raises (`call` is the external
Gemini outcome for the prompt: `Except.error` models `generate_content`
raising). -/
def generate_response (configured : Bool) (call : String → Except String String)
    (query : String) (context_chunks : List SearchResult) : String :=
  if !configured then
    "Gemini API key not configured. Please set GEMINI_API_KEY in your environment."
  else
    let context_text := format_context context_chunks
    let prompt := create_prompt query context_text
    match call prompt with
    | Except.ok t => t
    | Except.error e => "Error generating response: " ++ e

/-- `schemas.py` `QueryRequest` (validation `1 ≤ top_k ≤ 20` and the query
length bounds happen in pydantic before the handler runs; the handler code
modelled here sees the fields as data). -/
structure QueryRequest where
  query : String
  top_k : Option Int
  use_generation : Bool

/-- A `DocumentChunk` of the response schema. -/
structure DocumentChunk where
  chunk_id : String
  content : String
  metadata : ChunkMeta
  similarity_score : Option ℚ
deriving DecidableEq

/-- `schemas.py` `QueryResponse` (the timestamp is wall-clock and outside
the embedding). -/
structure QueryResponse where
  query : String
  answer : Option String
  sources : List DocumentChunk
deriving DecidableEq

/-- Python `request.top_k or settings.top_k_results`: `or` takes the
right-hand side when the left is falsy — `None` or `0`. -/
def pyOrInt (o : Option Int) (dflt : Int) : Int :=
  match o with
  | none => dflt
  | some v => if v = 0 then dflt else v

/-- `main.py` `query_documents(request)`: search, convert the results to
`DocumentChunk`s, and only when `use_generation` is requested AND the result
list is non-empty (Python truthiness of the list) call the generation
service; otherwise `answer` stays `None`. `gen` is the generation service
boundary (`generate_response` applied to query and context). -/
def query_documents (embed : String → Vec) (gen : String → List SearchResult → String)
    (st : Settings) (vs : VectorStore) (request : QueryRequest) : QueryResponse :=
  let search_results :=
    vs.search embed request.query (pyOrInt request.top_k st.top_k_results).toNat
  let sources := search_results.map (fun r =>
    { chunk_id := r.chunk.chunk_id
      content := r.chunk.content
      metadata := r.chunk.metadata
      similarity_score := some r.similarity_score : DocumentChunk })
  let answer :=
    if request.use_generation && !search_results.isEmpty then
      some (gen request.query search_results)
    else none
  { query := request.query, answer := answer, sources := sources }

/-- `schemas.py` `IngestionStatus`. -/
structure IngestionStatus where
  status : String
  total_documents : Nat
  total_chunks : Nat

/-- `main.py` `get_status()`: maps `get_stats` onto the status schema
(`total_chunks` is fed from `index_size`). -/
def get_status (model_name : String) (vs : VectorStore) : IngestionStatus :=
  let stats := vs.get_stats model_name
  { status := "ready"
    total_documents := stats.total_documents
    total_chunks := stats.index_size }

/-- One operation preserves positional alignment. -/
theorem applyOp_align (embed : String → Vec) (vs : VectorStore) (op : StoreOp)
    (h : vs.index.length = vs.documents.length) :
    (applyOp embed vs op).index.length = (applyOp embed vs op).documents.length := by
  cases op with
  | add chunks =>
    by_cases hc : chunks.isEmpty
    · simp [applyOp, VectorStore.add_documents, hc, h]
    · simp [applyOp, VectorStore.add_documents, hc, h]
  | clear => simp [applyOp, VectorStore.clear]

/-- A whole operation sequence preserves positional alignment. -/
theorem foldl_align (embed : String → Vec) :
    ∀ (ops : List StoreOp) (vs : VectorStore),
      vs.index.length = vs.documents.length →
      (ops.foldl (applyOp embed) vs).index.length
        = (ops.foldl (applyOp embed) vs).documents.length
  | [], _, h => h
  | op :: ops, vs, h => foldl_align embed ops _ (applyOp_align embed vs op h)

/-- C1: for every interleaved sequence of `add_documents`/`clear` operations
from the empty store, the index vector count equals the documents list
length (every prefix of a sequence is itself such a sequence, so the
equality holds before and after each operation), and both `get_stats` and
the `/api/status` payload report these two equal numbers. -/
theorem C1_alignment_invariant (embed : String → Vec) (dim : Nat)
    (model_name : String) (ops : List StoreOp) :
    (applyOps embed dim ops).index.length = (applyOps embed dim ops).documents.length
    ∧ ((applyOps embed dim ops).get_stats model_name).index_size
        = ((applyOps embed dim ops).get_stats model_name).total_documents
    ∧ (get_status model_name (applyOps embed dim ops)).total_chunks
        = (get_status model_name (applyOps embed dim ops)).total_documents := by
  have h := foldl_align embed ops (emptyStore dim) rfl
  exact ⟨h, h, h⟩

/-- C2 counterexample: on "The quick brown fox jumps over the lazy dog" with
`chunk_size=3, chunk_overlap=1`, the code does NOT produce the four chunks
the claim lists: the loop `range(0, 9, 2)` also visits offset 8 and emits a
fifth chunk. -/
theorem C2_counterexample :
    (DocumentProcessor.create_chunks (fun t => t) ⟨3, 1⟩
        "The quick brown fox jumps over the lazy dog"
        ⟨"doc.txt", "txt", "p"⟩).map (fun cs => cs.map Chunk.content)
      ≠ Except.ok ["The quick brown", "brown fox jumps", "jumps over the", "the lazy dog"] := by
  intro h
  have : (["The quick brown", "brown fox jumps", "jumps over the", "the lazy dog", "dog"] : List String)
      = ["The quick brown", "brown fox jumps", "jumps over the", "the lazy dog"] := by
    have h' : (DocumentProcessor.create_chunks (fun t => t) ⟨3, 1⟩
        "The quick brown fox jumps over the lazy dog"
        ⟨"doc.txt", "txt", "p"⟩).map (fun cs => cs.map Chunk.content)
      = Except.ok ["The quick brown", "brown fox jumps", "jumps over the", "the lazy dog", "dog"] := rfl
    exact Except.ok.inj (h'.symm.trans h)
  simp at this

/-- C2 amended: the scenario yields five chunks — the four the spec lists
followed by the trailing window "dog" at token offset 8. -/
theorem C2_amended_five_chunks :
    (DocumentProcessor.create_chunks (fun t => t) ⟨3, 1⟩
        "The quick brown fox jumps over the lazy dog"
        ⟨"doc.txt", "txt", "p"⟩).map (fun cs => cs.map Chunk.content)
      = Except.ok ["The quick brown", "brown fox jumps", "jumps over the",
          "the lazy dog", "dog"] := rfl

/-- C4 counterexample: the violating configuration `chunk_size=3,
chunk_overlap=5` passes startup — `Settings()` and `DocumentProcessor()`
both construct — and the splitter then runs without any error, silently
returning no chunks. -/
theorem C4_counterexample :
    ∃ s dp, Settings.construct 3 5 = some s
      ∧ DocumentProcessor.ofSettings s = some dp
      ∧ dp.create_chunks (fun t => t) "alpha beta" ⟨"f.txt", "txt", "p"⟩
          = Except.ok [] := ⟨_, _, rfl, rfl, rfl⟩

/-- C4 amended: no startup validation of `0 ≤ chunk_overlap < chunk_size`
exists: every integer pair constructs `Settings` and a `DocumentProcessor`.
A violating configuration fails only at call time, and only partially:
`chunk_overlap = chunk_size` makes `create_chunks` raise `ValueError` (zero
`range` step) on first use, while `chunk_overlap > chunk_size` makes it
return an empty chunk list with no error at all. -/
theorem C4_amended_no_startup_check (cs co : Int) (hash : String → String)
    (text : String) (md : Metadata) :
    (∃ s dp, Settings.construct cs co = some s
        ∧ DocumentProcessor.ofSettings s = some dp
        ∧ dp.chunk_size = cs ∧ dp.chunk_overlap = co)
    ∧ (co = cs → DocumentProcessor.create_chunks hash ⟨cs, co⟩ text md
        = Except.error "ValueError: range() arg 3 must not be zero")
    ∧ (cs < co → DocumentProcessor.create_chunks hash ⟨cs, co⟩ text md
        = Except.ok []) := by
  refine ⟨⟨_, _, rfl, rfl, rfl, rfl⟩, ?_, ?_⟩
  · intro h
    simp [DocumentProcessor.create_chunks, h]
  · intro h
    have h0 : ¬ (cs - co = 0) := by omega
    have h1 : cs - co < 0 := by omega
    simp [DocumentProcessor.create_chunks, h0, h1]

/-- C7: when both artifacts exist but deserializing either one raises,
`load` resets the store to the fully empty state (index and documents both
cleared, dimension kept) and returns failure; additionally, whenever `load`
reports success both artifacts were read and both are installed — there is
no outcome installing one without the other. -/
theorem C7_load_failure_resets (vs : VectorStore) (fs : StoredArtifacts)
    (h1 : fs.faiss_exists = true) (h2 : fs.docs_exists = true)
    (h3 : (∃ e, fs.faiss_read = Except.error e) ∨ (∃ e, fs.docs_read = Except.error e)) :
    vs.load fs = ({ vs with index := [], documents := [] }, false)
    ∧ ∀ fs' : StoredArtifacts, (vs.load fs').2 = true →
        ∃ idx docs, fs'.faiss_read = Except.ok idx ∧ fs'.docs_read = Except.ok docs
          ∧ (vs.load fs').1 = { vs with index := idx, documents := docs } := by
  constructor
  · rcases h3 with ⟨e, he⟩ | ⟨e, he⟩
    · simp [VectorStore.load, h1, h2, he]
    · cases hf : fs.faiss_read with
      | error e' => simp [VectorStore.load, h1, h2, hf]
      | ok idx => simp [VectorStore.load, h1, h2, hf, he]
  · intro fs' hok
    by_cases hx : fs'.faiss_exists && fs'.docs_exists
    · cases hf : fs'.faiss_read with
      | error e' => simp [VectorStore.load, hx, hf] at hok
      | ok idx =>
        cases hd : fs'.docs_read with
        | error e' => simp [VectorStore.load, hx, hf, hd] at hok
        | ok docs =>
          refine ⟨idx, docs, rfl, rfl, ?_⟩
          simp [VectorStore.load, hx, hf, hd]
    · simp [VectorStore.load, hx] at hok

/-- C7 witness: a concrete corrupt-artifact state resets a concrete store. -/
theorem C7_witness :
    VectorStore.load (emptyStore 2)
        ⟨true, true, Except.error "corrupt", Except.ok []⟩
      = ({ emptyStore 2 with index := [], documents := [] }, false)
    ∧ ∀ fs' : StoredArtifacts, ((emptyStore 2).load fs').2 = true →
        ∃ idx docs, fs'.faiss_read = Except.ok idx ∧ fs'.docs_read = Except.ok docs
          ∧ ((emptyStore 2).load fs').1 = { emptyStore 2 with index := idx, documents := docs } :=
  C7_load_failure_resets (emptyStore 2)
    ⟨true, true, Except.error "corrupt", Except.ok []⟩ rfl rfl
    (Or.inl ⟨"corrupt", rfl⟩)

/-- C9: `generate_response` never raises (in the embedding it is a total
`String`-valued function): with no model configured it returns the exact
configuration-fallback string, and when the underlying Gemini call raises it
returns the error-fallback string, so a missing or failed generation cannot
fail the enclosing request. -/
theorem C9_generate_response_fallbacks (call : String → Except String String)
    (query : String) (chunks : List SearchResult) :
    (generate_response false call query chunks
      = "Gemini API key not configured. Please set GEMINI_API_KEY in your environment.")
    ∧ (∀ e, call (create_prompt query (format_context chunks)) = Except.error e →
        generate_response true call query chunks = "Error generating response: " ++ e)
    ∧ (∀ s : Settings, s.gemini_api_key = "" → GenerationService.modelConfigured s = false) := by
  refine ⟨rfl, ?_, ?_⟩
  · intro e he
    simp [generate_response, he]
  · intro s hs
    simp [GenerationService.modelConfigured, hs]

/-- C8: when generation is requested but the search comes back empty, the
answer field is `None` and the generation service is never invoked — the
response is the same whatever function sits at the generation boundary. -/
theorem C8_empty_results_skip_generation (embed : String → Vec)
    (gen gen2 : String → List SearchResult → String) (st : Settings)
    (vs : VectorStore) (request : QueryRequest)
    (_hgen : request.use_generation = true)
    (hempty : vs.search embed request.query
        (pyOrInt request.top_k st.top_k_results).toNat = []) :
    (query_documents embed gen st vs request).answer = none
    ∧ query_documents embed gen st vs request
        = query_documents embed gen2 st vs request := by
  constructor
  · simp [query_documents, hempty]
  · simp [query_documents, hempty]

/-- C8 witness: a concrete empty store with generation requested. -/
theorem C8_witness :
    (query_documents (fun _ => []) (fun _ _ => "a") ⟨"", "m", 500, 100, 5⟩
        (emptyStore 0) ⟨"q", none, true⟩).answer = none
    ∧ query_documents (fun _ => []) (fun _ _ => "a") ⟨"", "m", 500, 100, 5⟩
        (emptyStore 0) ⟨"q", none, true⟩
      = query_documents (fun _ => []) (fun _ _ => "b") ⟨"", "m", 500, 100, 5⟩
          (emptyStore 0) ⟨"q", none, true⟩ :=
  C8_empty_results_skip_generation (fun _ => []) (fun _ _ => "a") (fun _ _ => "b")
    ⟨"", "m", 500, 100, 5⟩ (emptyStore 0) ⟨"q", none, true⟩ rfl rfl


/-- `String.mk` of a string's own characters is that string. -/
theorem string_mk_data : ∀ s : String, String.mk s.data = s
  | ⟨_⟩ => rfl

/-- Appending strings appends their character lists. -/
theorem string_data_append : ∀ a b : String, (a ++ b).data = a.data ++ b.data
  | ⟨_⟩, ⟨_⟩ => rfl

/-- `String.mk` of a non-empty character list is a non-empty string. -/
theorem mk_ne_empty (l : List Char) (h : l ≠ []) : String.mk l ≠ "" :=
  fun hEq => h (by simpa using congrArg String.data hEq)

/-- A string is empty exactly when its character list is. -/
theorem string_eq_empty_iff (s : String) : s = "" ↔ s.data = [] := by
  constructor
  · intro h
    simpa using congrArg String.data h
  · intro h
    rw [← string_mk_data s, h]

/-- Every token `pySplitAux` emits is non-empty and free of whitespace
characters, provided the accumulator is. -/
theorem pySplitAux_clean :
    ∀ (cs acc : List Char), (∀ c ∈ acc, pyIsSpace c = false) →
      ∀ w ∈ pySplitAux cs acc, w ≠ "" ∧ ∀ c ∈ w.data, pyIsSpace c = false := by
  intro cs
  induction cs with
  | nil =>
    intro acc hacc w hw
    rw [pySplitAux] at hw
    cases hb : acc.isEmpty with
    | true => simp [hb] at hw
    | false =>
      simp [hb] at hw
      subst hw
      have hacc' : acc ≠ [] := fun hh => by simp [hh] at hb
      refine ⟨mk_ne_empty _ (fun hh => hacc' (List.reverse_eq_nil_iff.mp hh)), ?_⟩
      intro d hd
      exact hacc d (List.mem_reverse.mp (by simpa using hd))
  | cons c cs ih =>
    intro acc hacc w hw
    rw [pySplitAux] at hw
    cases hsp : pyIsSpace c with
    | true =>
      cases hb : acc.isEmpty with
      | true =>
        simp [hsp, hb] at hw
        exact ih [] (by simp) w hw
      | false =>
        simp [hsp, hb] at hw
        rcases hw with rfl | hw
        · have hacc' : acc ≠ [] := fun hh => by simp [hh] at hb
          refine ⟨mk_ne_empty _ (fun hh => hacc' (List.reverse_eq_nil_iff.mp hh)), ?_⟩
          intro d hd
          exact hacc d (List.mem_reverse.mp (by simpa using hd))
        · exact ih [] (by simp) w hw
    | false =>
      simp [hsp] at hw
      refine ih (c :: acc) ?_ w hw
      intro d hd
      rcases List.mem_cons.mp hd with rfl | h2
      · exact hsp
      · exact hacc d h2

/-- Every token of `pySplit` is non-empty and whitespace-free. -/
theorem pySplit_clean (s : String) :
    ∀ w ∈ pySplit s, w ≠ "" ∧ ∀ c ∈ w.data, pyIsSpace c = false :=
  pySplitAux_clean s.data [] (by simp)

/-- Feeding non-whitespace characters into the splitter just grows the
accumulator. -/
theorem pySplitAux_append_nonspace :
    ∀ (d cs acc : List Char), (∀ c ∈ d, pyIsSpace c = false) →
      pySplitAux (d ++ cs) acc = pySplitAux cs (d.reverse ++ acc)
  | [], cs, acc, _ => by simp
  | c :: d, cs, acc, h => by
    have hc : pyIsSpace c = false := h c (List.mem_cons_self c d)
    rw [List.cons_append, pySplitAux]
    simp only [hc, Bool.false_eq_true, if_false]
    rw [pySplitAux_append_nonspace d cs (c :: acc)
      (fun x hx => h x (List.mem_cons_of_mem c hx))]
    simp

/-- Splitting a space-joined list of clean tokens recovers the tokens. -/
theorem pySplit_joinSpace :
    ∀ ws : List String, (∀ w ∈ ws, w ≠ "" ∧ ∀ c ∈ w.data, pyIsSpace c = false) →
      pySplit (joinSpace ws) = ws
  | [], _ => rfl
  | [w], h => by
    obtain ⟨hne, hcl⟩ := h w (List.mem_singleton_self w)
    have hd : w.data ≠ [] := fun hh => hne ((string_eq_empty_iff w).mpr hh)
    show pySplitAux (joinSpace [w]).data [] = [w]
    rw [show joinSpace [w] = w from rfl,
      show w.data = w.data ++ [] from (List.append_nil _).symm,
      pySplitAux_append_nonspace w.data [] [] hcl, pySplitAux]
    simp [List.isEmpty_iff, hd, string_mk_data]
  | w :: v :: ws, h => by
    obtain ⟨hne, hcl⟩ := h w (List.mem_cons_self _ _)
    have hd : w.data ≠ [] := fun hh => hne ((string_eq_empty_iff w).mpr hh)
    have hrest : ∀ u ∈ v :: ws, u ≠ "" ∧ ∀ c ∈ u.data, pyIsSpace c = false :=
      fun u hu => h u (List.mem_cons_of_mem w hu)
    have ih := pySplit_joinSpace (v :: ws) hrest
    show pySplitAux (joinSpace (w :: v :: ws)).data [] = w :: v :: ws
    rw [show joinSpace (w :: v :: ws) = w ++ " " ++ joinSpace (v :: ws) from rfl]
    rw [show (w ++ " " ++ joinSpace (v :: ws)).data
        = w.data ++ (' ' :: (joinSpace (v :: ws)).data) by
      rw [string_data_append, string_data_append]
      simp]
    rw [pySplitAux_append_nonspace w.data _ [] hcl, pySplitAux]
    simp only [show pyIsSpace ' ' = true from rfl, if_true]
    have hkeep : (w.data.reverse ++ []).isEmpty = false := by
      simp [hd]
    simp only [hkeep, Bool.false_eq_true, if_false]
    rw [show pySplitAux (joinSpace (v :: ws)).data [] = pySplit (joinSpace (v :: ws)) from rfl,
      ih]
    simp [string_mk_data]

/-- A text of whitespace only splits to no tokens. -/
theorem pySplitAux_nil_of_allspace :
    ∀ l : List Char, (∀ c ∈ l, pyIsSpace c = true) → pySplitAux l [] = []
  | [], _ => rfl
  | c :: cs, h => by
    rw [pySplitAux]
    simp only [h c (List.mem_cons_self c cs), if_true, List.isEmpty_nil]
    exact pySplitAux_nil_of_allspace cs (fun d hd => h d (List.mem_cons_of_mem c hd))

/-- If stripping a string leaves nothing, every character was whitespace. -/
theorem allspace_of_pyStrip_empty (t : String) (h : pyStrip t = "") :
    ∀ c ∈ t.data, pyIsSpace c = true := by
  unfold pyStrip at h
  have h1 : (((t.data.dropWhile pyIsSpace).reverse.dropWhile pyIsSpace).reverse) = [] := by
    simpa using congrArg String.data h
  rw [List.reverse_eq_nil_iff] at h1
  have h2 : ∀ c ∈ (t.data.dropWhile pyIsSpace).reverse, pyIsSpace c = true := by
    intro c hc
    exact List.dropWhile_eq_nil_iff.mp h1 c hc
  have h3 : ∀ c ∈ t.data.dropWhile pyIsSpace, pyIsSpace c = true := by
    intro c hc
    exact h2 c (List.mem_reverse.mpr hc)
  intro c hc
  rw [← List.takeWhile_append_dropWhile (p := pyIsSpace) (l := t.data)] at hc
  rcases List.mem_append.mp hc with h4 | h4
  · exact List.mem_takeWhile_imp h4
  · exact h3 c h4

/-- If stripping a string leaves nothing, it splits to no tokens. -/
theorem pySplit_nil_of_pyStrip_empty (t : String) (h : pyStrip t = "") :
    pySplit t = [] :=
  pySplitAux_nil_of_allspace t.data (allspace_of_pyStrip_empty t h)

/-- `Int.toNat` undoes `Int.ofNat`. -/
theorem int_toNat_ofNat (n : Nat) : (Int.ofNat n).toNat = n := rfl

/-- `Int.ofNat` commutes with addition. -/
theorem int_ofNat_add (m n : Nat) : Int.ofNat (m + n) = Int.ofNat m + Int.ofNat n := rfl

/-- `pySlice` with natural bounds is take-then-drop. -/
theorem pySlice_nat {α : Type} (xs : List α) (i S : Nat) :
    pySlice xs (Int.ofNat i) (Int.ofNat i + Int.ofNat S) = (xs.take (i + S)).drop i := by
  unfold pySlice
  rw [← int_ofNat_add i S]
  have h1 : ¬ ((Int.ofNat i) < 0) := Int.not_lt.mpr (Int.ofNat_nonneg i)
  have h2 : ¬ ((Int.ofNat (i + S)) < 0) := Int.not_lt.mpr (Int.ofNat_nonneg (i + S))
  simp only [h1, if_false, h2, int_toNat_ofNat]

/-- Length of a window slice. -/
theorem length_pySlice {α : Type} (xs : List α) (i S : Nat) :
    (pySlice xs (Int.ofNat i) (Int.ofNat i + Int.ofNat S)).length
      = min (i + S) xs.length - i := by
  rw [pySlice_nat]
  simp [List.length_drop, List.length_take]

/-- Window slices draw their elements from the list. -/
theorem mem_pySlice {α : Type} (xs : List α) (i S : Nat) (x : α)
    (hx : x ∈ pySlice xs (Int.ofNat i) (Int.ofNat i + Int.ofNat S)) : x ∈ xs := by
  rw [pySlice_nat] at hx
  exact List.mem_of_mem_take (List.mem_of_mem_drop hx)

/-- The arithmetic progression `a, a+s, …` of length `m` (proof-side view of
`pyStarts`). -/
def startsFrom : Nat → Nat → Nat → List Nat
  | 0, _, _ => []
  | m + 1, a, s => a :: startsFrom m (a + s) s

/-- Mapping multiplication-by-`s` over `range` gives the progression. -/
theorem range_map_eq_startsFrom (s : Nat) : ∀ (m a : Nat),
    (List.range m).map (fun k => (a + k) * s) = startsFrom m (a * s) s
  | 0, _ => rfl
  | m + 1, a => by
    rw [List.range_succ_eq_map, List.map_cons, List.map_map]
    rw [show ((fun k => (a + k) * s) ∘ Nat.succ) = (fun k => ((a + 1) + k) * s) by
      funext k
      simp only [Function.comp_apply, Nat.succ_eq_add_one]
      ring]
    rw [range_map_eq_startsFrom s m (a + 1)]
    simp [startsFrom, Nat.add_mul]

/-- `pyStarts` is the progression `0, s, 2s, …` of length `⌈n/s⌉`. -/
theorem pyStarts_eq_startsFrom (n s : Nat) :
    pyStarts n s = startsFrom ((n + s - 1) / s) 0 s := by
  unfold pyStarts
  rw [show (fun k : Nat => k * s) = (fun k => (0 + k) * s) by funext k; simp]
  simpa using range_map_eq_startsFrom s ((n + s - 1) / s) 0

/-- Every visited multiple of the step lies below `n`. -/
theorem mul_lt_of_lt_ceil (n s k : Nat) (hs : 1 ≤ s)
    (hk : k < (n + s - 1) / s) : k * s < n := by
  have h1 : (k + 1) * s ≤ n + s - 1 :=
    (Nat.le_div_iff_mul_le (by omega)).mp (by omega)
  rw [Nat.add_mul, one_mul] at h1
  omega

/-- `Int.ofNat` is the cast. -/
theorem int_ofNat_eq_cast (n : Nat) : Int.ofNat n = (n : Int) := rfl

/-- Facts about one window at offset `i < len(words)` when the words are
clean tokens and the window size is positive: splitting the joined window
recovers it, its length is `min (i+S, N) - i`, and its joined text does not
strip to nothing (so the chunk is kept). -/
theorem window_facts (dp : DocumentProcessor) (words : List String) (S i : Nat)
    (hS : dp.chunk_size = Int.ofNat S) (hS1 : 1 ≤ S) (hiN : i < words.length)
    (hclean : ∀ w ∈ words, w ≠ "" ∧ ∀ c ∈ w.data, pyIsSpace c = false) :
    pySplit (joinSpace (pySlice words (Int.ofNat i) (Int.ofNat i + dp.chunk_size)))
        = pySlice words (Int.ofNat i) (Int.ofNat i + dp.chunk_size)
    ∧ (pySlice words (Int.ofNat i) (Int.ofNat i + dp.chunk_size)).length
        = min (i + S) words.length - i
    ∧ pyStrip (joinSpace (pySlice words (Int.ofNat i) (Int.ofNat i + dp.chunk_size))) ≠ "" := by
  rw [hS]
  have hwclean : ∀ w ∈ pySlice words (Int.ofNat i) (Int.ofNat i + Int.ofNat S),
      w ≠ "" ∧ ∀ c ∈ w.data, pyIsSpace c = false :=
    fun w hw => hclean w (mem_pySlice words i S w hw)
  have htok := pySplit_joinSpace _ hwclean
  have hlen := length_pySlice words i S
  have hne : pySlice words (Int.ofNat i) (Int.ofNat i + Int.ofNat S) ≠ [] := by
    intro hh
    have h0 := congrArg List.length hh
    rw [hlen] at h0
    simp at h0
    omega
  refine ⟨htok, hlen, ?_⟩
  intro hstrip
  have hnil := pySplit_nil_of_pyStrip_empty _ hstrip
  rw [htok] at hnil
  exact hne hnil

/-- The chunk record `create_chunks` appends for the window at offset `i`
when the window text survives the emptiness check. -/
def chunkAt (hash : String → String) (dp : DocumentProcessor) (words : List String)
    (md : Metadata) (i nch : Nat) : Chunk :=
  { chunk_id := hash (joinSpace (pySlice words (Int.ofNat i) (Int.ofNat i + dp.chunk_size)))
    content := joinSpace (pySlice words (Int.ofNat i) (Int.ofNat i + dp.chunk_size))
    metadata :=
      { filename := md.filename
        file_type := md.file_type
        file_path := md.file_path
        chunk_index := nch
        start_index := i
        end_index := min (Int.ofNat i + dp.chunk_size) (Int.ofNat words.length) } }

/-- Unfolding the loop at a kept window. -/
theorem createChunksLoop_cons_of_kept (hash : String → String) (dp : DocumentProcessor)
    (words : List String) (md : Metadata) (i nch : Nat) (rest : List Nat)
    (hkept : pyStrip (joinSpace
        (pySlice words (Int.ofNat i) (Int.ofNat i + dp.chunk_size))) ≠ "") :
    createChunksLoop hash dp words md (i :: rest) nch
      = chunkAt hash dp words md i nch
          :: createChunksLoop hash dp words md rest (nch + 1) := by
  simp only [createChunksLoop, chunkAt]
  rw [if_neg hkept]

/-- Every chunk the loop emits survived the emptiness check. -/
theorem strip_ne_of_mem_createChunksLoop (hash : String → String)
    (dp : DocumentProcessor) (words : List String) (md : Metadata) :
    ∀ (starts : List Nat) (nch : Nat) (c : Chunk),
      c ∈ createChunksLoop hash dp words md starts nch → pyStrip c.content ≠ ""
  | [], _, c, hc => by simp [createChunksLoop] at hc
  | i :: rest, nch, c, hc => by
    simp only [createChunksLoop] at hc
    by_cases hg : pyStrip (joinSpace
        (pySlice words (Int.ofNat i) (Int.ofNat i + dp.chunk_size))) = ""
    · rw [if_pos hg] at hc
      exact strip_ne_of_mem_createChunksLoop hash dp words md rest nch c hc
    · rw [if_neg hg] at hc
      rcases List.mem_cons.mp hc with rfl | hmem
      · exact hg
      · exact strip_ne_of_mem_createChunksLoop hash dp words md rest (nch + 1) c hmem

/-- Every chunk the loop emits holds at most `S` tokens, where `S` is the
configured chunk size. -/
theorem token_bound_of_mem_createChunksLoop (hash : String → String)
    (dp : DocumentProcessor) (words : List String) (md : Metadata) (S : Nat)
    (hS : dp.chunk_size = Int.ofNat S)
    (hclean : ∀ w ∈ words, w ≠ "" ∧ ∀ c ∈ w.data, pyIsSpace c = false) :
    ∀ (starts : List Nat) (nch : Nat) (c : Chunk),
      c ∈ createChunksLoop hash dp words md starts nch →
      (pySplit c.content).length ≤ S
  | [], _, c, hc => by simp [createChunksLoop] at hc
  | i :: rest, nch, c, hc => by
    simp only [createChunksLoop] at hc
    by_cases hg : pyStrip (joinSpace
        (pySlice words (Int.ofNat i) (Int.ofNat i + dp.chunk_size))) = ""
    · rw [if_pos hg] at hc
      exact token_bound_of_mem_createChunksLoop hash dp words md S hS hclean rest nch c hc
    · rw [if_neg hg] at hc
      rcases List.mem_cons.mp hc with rfl | hmem
      · show (pySplit (joinSpace
            (pySlice words (Int.ofNat i) (Int.ofNat i + dp.chunk_size)))).length ≤ S
        have hwclean : ∀ w ∈ pySlice words (Int.ofNat i) (Int.ofNat i + dp.chunk_size),
            w ≠ "" ∧ ∀ c ∈ w.data, pyIsSpace c = false :=
          fun w hw => hclean w (by rw [hS] at hw; exact mem_pySlice words i S w hw)
        rw [pySplit_joinSpace _ hwclean, hS, length_pySlice]
        omega
      · exact token_bound_of_mem_createChunksLoop hash dp words md S hS hclean
          rest (nch + 1) c hmem

/-- Two consecutive kept windows stand in the amended-overlap relation:
their index overlap is the earlier chunk's token count minus the stride,
hence exactly `chunk_overlap` when the earlier chunk is full. -/
theorem chunkAt_pair_rel (hash : String → String) (dp : DocumentProcessor)
    (words : List String) (md : Metadata) (S s : Nat)
    (hS : dp.chunk_size = Int.ofNat S)
    (hstep : dp.chunk_size - dp.chunk_overlap = Int.ofNat s)
    (hS1 : 1 ≤ S)
    (hclean : ∀ w ∈ words, w ≠ "" ∧ ∀ c ∈ w.data, pyIsSpace c = false)
    (a nch nch2 : Nat) (haN : a < words.length) :
    (chunkAt hash dp words md a nch).metadata.end_index
        - ((chunkAt hash dp words md (a + s) nch2).metadata.start_index : Int)
      = ((pySplit (chunkAt hash dp words md a nch).content).length : Int)
          - (dp.chunk_size - dp.chunk_overlap)
    ∧ (((pySplit (chunkAt hash dp words md a nch).content).length : Int) = dp.chunk_size →
        (chunkAt hash dp words md a nch).metadata.end_index
            - ((chunkAt hash dp words md (a + s) nch2).metadata.start_index : Int)
          = dp.chunk_overlap) := by
  obtain ⟨htok, hlen, -⟩ := window_facts dp words S a hS hS1 haN hclean
  have ho : dp.chunk_overlap = Int.ofNat S - Int.ofNat s := by omega
  simp only [chunkAt]
  rw [htok, hlen]
  constructor
  · rw [hstep, hS]
    simp only [int_ofNat_eq_cast]
    omega
  · intro hful
    rw [hS] at hful
    rw [ho, hS]
    simp only [int_ofNat_eq_cast] at hful ⊢
    omega

/-- Chunks emitted over an in-range arithmetic progression of window starts
are chained by the amended-overlap relation. -/
theorem chain_createChunksLoop (hash : String → String) (dp : DocumentProcessor)
    (words : List String) (md : Metadata) (S s : Nat)
    (hS : dp.chunk_size = Int.ofNat S)
    (hstep : dp.chunk_size - dp.chunk_overlap = Int.ofNat s)
    (hS1 : 1 ≤ S)
    (hclean : ∀ w ∈ words, w ≠ "" ∧ ∀ c ∈ w.data, pyIsSpace c = false) :
    ∀ (m a nch : Nat), (∀ k, k < m → a + k * s < words.length) →
      List.Chain' (fun c d : Chunk =>
        c.metadata.end_index - (d.metadata.start_index : Int)
          = ((pySplit c.content).length : Int) - (dp.chunk_size - dp.chunk_overlap)
        ∧ (((pySplit c.content).length : Int) = dp.chunk_size →
            c.metadata.end_index - (d.metadata.start_index : Int) = dp.chunk_overlap))
        (createChunksLoop hash dp words md (startsFrom m a s) nch)
  | 0, a, nch, _ => by
    simp [startsFrom, createChunksLoop]
  | 1, a, nch, hbound => by
    have haN : a < words.length := by
      have := hbound 0 (by omega)
      simpa using this
    obtain ⟨-, -, hkept⟩ := window_facts dp words S a hS hS1 haN hclean
    rw [show startsFrom 1 a s = [a] from rfl,
      createChunksLoop_cons_of_kept hash dp words md a nch [] hkept]
    simp [createChunksLoop]
  | m + 2, a, nch, hbound => by
    have haN : a < words.length := by
      have := hbound 0 (by omega)
      simpa using this
    have hsaN : a + s < words.length := by
      have := hbound 1 (by omega)
      rw [one_mul] at this
      exact this
    have hbound' : ∀ k, k < m + 1 → (a + s) + k * s < words.length := by
      intro k hk
      have := hbound (k + 1) (by omega)
      rw [Nat.add_mul, one_mul] at this
      omega
    have ihchain := chain_createChunksLoop hash dp words md S s hS hstep hS1 hclean
      (m + 1) (a + s) (nch + 1) hbound'
    obtain ⟨-, -, hkeptA⟩ := window_facts dp words S a hS hS1 haN hclean
    obtain ⟨-, -, hkeptB⟩ := window_facts dp words S (a + s) hS hS1 hsaN hclean
    have hunfold : createChunksLoop hash dp words md (startsFrom (m + 1) (a + s) s) (nch + 1)
        = chunkAt hash dp words md (a + s) (nch + 1)
            :: createChunksLoop hash dp words md (startsFrom m ((a + s) + s) s) (nch + 2) := by
      rw [show startsFrom (m + 1) (a + s) s = (a + s) :: startsFrom m ((a + s) + s) s from rfl]
      exact createChunksLoop_cons_of_kept hash dp words md (a + s) (nch + 1) _ hkeptB
    rw [show startsFrom (m + 2) a s = a :: startsFrom (m + 1) (a + s) s from rfl,
      createChunksLoop_cons_of_kept hash dp words md a nch _ hkeptA, hunfold]
    rw [hunfold] at ihchain
    exact List.chain'_cons.mpr
      ⟨chunkAt_pair_rel hash dp words md S s hS hstep hS1 hclean a nch (nch + 1) haN, ihchain⟩

/-- C3 counterexample: with `chunk_size=4, chunk_overlap=3` on six tokens
the code emits six chunks whose trailing windows are truncated, and the
consecutive pair ("d e f", "e f") shares only 2 tokens, not `chunk_overlap
= 3` — so "every pair of consecutive chunks shares exactly chunk_overlap
tokens (the final chunk may be shorter)" fails on the code. -/
theorem C3_counterexample :
    ((DocumentProcessor.create_chunks (fun t => t) ⟨4, 3⟩ "a b c d e f"
        ⟨"f.txt", "txt", "p"⟩).toOption.getD []).map
        (fun c => (c.content, c.metadata.start_index, c.metadata.end_index))
      = [("a b c d", 0, 4), ("b c d e", 1, 5), ("c d e f", 2, 6),
         ("d e f", 3, 6), ("e f", 4, 6), ("f", 5, 6)]
    ∧ ¬ List.Chain' (fun c d : Chunk =>
          c.metadata.end_index - (d.metadata.start_index : Int) = 3)
        ((DocumentProcessor.create_chunks (fun t => t) ⟨4, 3⟩ "a b c d e f"
            ⟨"f.txt", "txt", "p"⟩).toOption.getD []) := by
  refine ⟨rfl, ?_⟩
  intro h
  have hm : List.Chain' (fun p q : String × Nat × Int => p.2.2 - (q.2.1 : Int) = 3)
      (((DocumentProcessor.create_chunks (fun t => t) ⟨4, 3⟩ "a b c d e f"
          ⟨"f.txt", "txt", "p"⟩).toOption.getD []).map
          (fun c => (c.content, c.metadata.start_index, c.metadata.end_index))) := by
    rw [List.chain'_map]
    exact h
  rw [show ((DocumentProcessor.create_chunks (fun t => t) ⟨4, 3⟩ "a b c d e f"
      ⟨"f.txt", "txt", "p"⟩).toOption.getD []).map
      (fun c => (c.content, c.metadata.start_index, c.metadata.end_index))
    = [("a b c d", 0, 4), ("b c d e", 1, 5), ("c d e f", 2, 6),
       ("d e f", 3, 6), ("e f", 4, 6), ("f", 5, 6)] from rfl] at hm
  simp only [List.chain'_cons, List.chain'_singleton, and_true] at hm
  omega

/-- C3 amended: for every text and every configuration with
`0 ≤ chunk_overlap < chunk_size`, `create_chunks` succeeds and emits only
chunks of at most `chunk_size` tokens with no empty or whitespace-only
chunk; each pair of consecutive chunks overlaps by the earlier chunk's
token count minus the stride — which is exactly `chunk_overlap` whenever
the earlier chunk is full-length (truncated windows near the end of the
text, not only the final one, can make the shared token count smaller). -/
theorem C3_amended_chunk_properties (hash : String → String) (md : Metadata)
    (dp : DocumentProcessor) (text : String)
    (h0 : 0 ≤ dp.chunk_overlap) (h1 : dp.chunk_overlap < dp.chunk_size) :
    ∃ cs, dp.create_chunks hash text md = Except.ok cs
      ∧ (∀ c ∈ cs, ((pySplit c.content).length : Int) ≤ dp.chunk_size)
      ∧ (∀ c ∈ cs, pyStrip c.content ≠ "")
      ∧ List.Chain' (fun c d : Chunk =>
          c.metadata.end_index - (d.metadata.start_index : Int)
            = ((pySplit c.content).length : Int) - (dp.chunk_size - dp.chunk_overlap)
          ∧ (((pySplit c.content).length : Int) = dp.chunk_size →
              c.metadata.end_index - (d.metadata.start_index : Int) = dp.chunk_overlap)) cs := by
  have hclean := pySplit_clean text
  have hS : dp.chunk_size = Int.ofNat dp.chunk_size.toNat := by
    rw [int_ofNat_eq_cast]
    omega
  have hstep : dp.chunk_size - dp.chunk_overlap
      = Int.ofNat (dp.chunk_size - dp.chunk_overlap).toNat := by
    rw [int_ofNat_eq_cast]
    omega
  have hS1 : 1 ≤ dp.chunk_size.toNat := by omega
  have hs1 : 1 ≤ (dp.chunk_size - dp.chunk_overlap).toNat := by omega
  have hne0 : ¬ (dp.chunk_size - dp.chunk_overlap = 0) := by omega
  have hnlt : ¬ (dp.chunk_size - dp.chunk_overlap < 0) := by omega
  refine ⟨createChunksLoop hash dp (pySplit text) md
      (pyStarts (pySplit text).length (dp.chunk_size - dp.chunk_overlap).toNat) 0,
    ?_, ?_, ?_, ?_⟩
  · simp only [DocumentProcessor.create_chunks]
    rw [if_neg hne0, if_neg hnlt]
  · intro c hc
    have hb := token_bound_of_mem_createChunksLoop hash dp (pySplit text) md
      dp.chunk_size.toNat hS hclean _ 0 c hc
    omega
  · intro c hc
    exact strip_ne_of_mem_createChunksLoop hash dp (pySplit text) md _ 0 c hc
  · rw [pyStarts_eq_startsFrom]
    refine chain_createChunksLoop hash dp (pySplit text) md
      dp.chunk_size.toNat (dp.chunk_size - dp.chunk_overlap).toNat
      hS hstep hS1 hclean _ 0 0 ?_
    intro k hk
    have := mul_lt_of_lt_ceil (pySplit text).length
      (dp.chunk_size - dp.chunk_overlap).toNat k hs1 hk
    omega

/-- C3 witness: the amended properties at the spec's own scenario
(`chunk_size=3, chunk_overlap=1` on the nine-token sentence). -/
theorem C3_witness :
    ∃ cs, DocumentProcessor.create_chunks (fun t => t) ⟨3, 1⟩
        "The quick brown fox jumps over the lazy dog" ⟨"doc.txt", "txt", "p"⟩
        = Except.ok cs
      ∧ (∀ c ∈ cs, ((pySplit c.content).length : Int) ≤ (3 : Int))
      ∧ (∀ c ∈ cs, pyStrip c.content ≠ "")
      ∧ List.Chain' (fun c d : Chunk =>
          c.metadata.end_index - (d.metadata.start_index : Int)
            = ((pySplit c.content).length : Int) - ((3 : Int) - 1)
          ∧ (((pySplit c.content).length : Int) = (3 : Int) →
              c.metadata.end_index - (d.metadata.start_index : Int) = (1 : Int))) cs :=
  C3_amended_chunk_properties (fun t => t) ⟨"doc.txt", "txt", "p"⟩ ⟨3, 1⟩
    "The quick brown fox jumps over the lazy dog" (by decide) (by decide)

/-- Inserting grows the length by one. -/
theorem length_insertByDist (p : Nat × ℚ) :
    ∀ l : List (Nat × ℚ), (insertByDist p l).length = l.length + 1
  | [] => rfl
  | q :: qs => by
    rw [insertByDist]
    by_cases h : p.2 ≤ q.2
    · rw [if_pos h]
      rfl
    · rw [if_neg h]
      simp [length_insertByDist p qs]

/-- Sorting preserves the length. -/
theorem length_sortByDist : ∀ l : List (Nat × ℚ), (sortByDist l).length = l.length
  | [] => rfl
  | p :: ps => by
    rw [sortByDist, length_insertByDist, length_sortByDist ps]
    rfl

/-- Membership in an insertion. -/
theorem mem_insertByDist (p x : Nat × ℚ) :
    ∀ l : List (Nat × ℚ), x ∈ insertByDist p l ↔ x = p ∨ x ∈ l
  | [] => by simp [insertByDist]
  | q :: qs => by
    rw [insertByDist]
    by_cases h : p.2 ≤ q.2
    · rw [if_pos h]
      simp
    · rw [if_neg h]
      simp [mem_insertByDist p x qs]
      tauto

/-- Sorting preserves membership. -/
theorem mem_sortByDist (x : Nat × ℚ) :
    ∀ l : List (Nat × ℚ), x ∈ sortByDist l ↔ x ∈ l
  | [] => Iff.rfl
  | p :: ps => by
    rw [sortByDist, mem_insertByDist]
    simp [mem_sortByDist x ps]

/-- Inserting into a distance-sorted list keeps it sorted. -/
theorem pairwise_insertByDist (p : Nat × ℚ) :
    ∀ l : List (Nat × ℚ), List.Pairwise (fun x y => x.2 ≤ y.2) l →
      List.Pairwise (fun x y => x.2 ≤ y.2) (insertByDist p l)
  | [], _ => by simp [insertByDist]
  | q :: qs, h => by
    rw [insertByDist]
    obtain ⟨hq, hqs⟩ := List.pairwise_cons.mp h
    by_cases hle : p.2 ≤ q.2
    · rw [if_pos hle]
      refine List.pairwise_cons.mpr ⟨?_, h⟩
      intro y hy
      rcases List.mem_cons.mp hy with rfl | hy
      · exact hle
      · exact le_trans hle (hq y hy)
    · rw [if_neg hle]
      refine List.pairwise_cons.mpr ⟨?_, pairwise_insertByDist p qs hqs⟩
      intro y hy
      rcases (mem_insertByDist p y qs).mp hy with rfl | hy
      · exact le_of_lt (lt_of_not_le hle)
      · exact hq y hy

/-- The sorted pair list is ascending in distance. -/
theorem pairwise_sortByDist :
    ∀ l : List (Nat × ℚ), List.Pairwise (fun x y => x.2 ≤ y.2) (sortByDist l)
  | [] => List.Pairwise.nil
  | p :: ps => pairwise_insertByDist p (sortByDist ps) (pairwise_sortByDist ps)

/-- Squared terms of the L2 sum are non-negative. -/
theorem zipWith_sq_nonneg :
    ∀ (l1 l2 : List ℚ), ∀ x ∈ List.zipWith (fun a b => (a - b) * (a - b)) l1 l2, 0 ≤ x
  | [], _, x, hx => by simp at hx
  | _ :: _, [], x, hx => by simp at hx
  | a :: l1, b :: l2, x, hx => by
    rcases List.mem_cons.mp (by simpa using hx) with rfl | hx
    · exact mul_self_nonneg _
    · exact zipWith_sq_nonneg l1 l2 x hx

/-- Squared L2 distances are non-negative. -/
theorem l2sq_nonneg (q v : Vec) : 0 ≤ l2sq q v :=
  List.sum_nonneg (zipWith_sq_nonneg q v)

/-- `faissSearch` returns exactly `min k ntotal` pairs. -/
theorem length_faissSearch (vecs : List Vec) (q : Vec) (k : Nat) :
    (faissSearch vecs q k).length = min k vecs.length := by
  unfold faissSearch
  rw [List.length_take, length_sortByDist]
  simp

/-- Every pair `faissSearch` returns carries an in-range position and a
non-negative distance. -/
theorem mem_faissSearch (vecs : List Vec) (q : Vec) (k : Nat) (p : Nat × ℚ)
    (hp : p ∈ faissSearch vecs q k) : p.1 < vecs.length ∧ 0 ≤ p.2 := by
  have hmem : p ∈ sortByDist ((vecs.map (fun v => l2sq q v)).enum) :=
    List.mem_of_mem_take hp
  have henum : p ∈ (vecs.map (fun v => l2sq q v)).enum := (mem_sortByDist p _).mp hmem
  rw [List.enum_eq_zip_range] at henum
  obtain ⟨h1, h2⟩ := List.of_mem_zip henum
  constructor
  · have := List.mem_range.mp h1
    simpa using this
  · obtain ⟨v, -, hv⟩ := List.mem_map.mp h2
    rw [← hv]
    exact l2sq_nonneg q v

/-- The distance list `faissSearch` returns is ascending. -/
theorem pairwise_faissSearch (vecs : List Vec) (q : Vec) (k : Nat) :
    List.Pairwise (fun x y : Nat × ℚ => x.2 ≤ y.2) (faissSearch vecs q k) :=
  (pairwise_sortByDist _).sublist (List.take_sublist k _)

/-- With no stored documents every position fails the bound check. -/
theorem searchLoop_nil_docs : ∀ l : List (Nat × ℚ), searchLoop [] l = []
  | [] => rfl
  | (idx, dist) :: rest => by
    rw [searchLoop]
    have h : ¬ idx < ([] : List Chunk).length := by simp
    rw [dif_neg h]
    exact searchLoop_nil_docs rest

/-- The result loop never returns more pairs than it was given. -/
theorem length_searchLoop_le (docs : List Chunk) :
    ∀ l : List (Nat × ℚ), (searchLoop docs l).length ≤ l.length
  | [] => le_refl _
  | (idx, dist) :: rest => by
    rw [searchLoop]
    by_cases h : idx < docs.length
    · rw [dif_pos h]
      simpa using length_searchLoop_le docs rest
    · rw [dif_neg h]
      have := length_searchLoop_le docs rest
      simp
      omega

/-- When every position is in range the result loop keeps every pair. -/
theorem length_searchLoop_eq (docs : List Chunk) :
    ∀ l : List (Nat × ℚ), (∀ p ∈ l, p.1 < docs.length) →
      (searchLoop docs l).length = l.length
  | [], _ => rfl
  | (idx, dist) :: rest, h => by
    rw [searchLoop]
    rw [dif_pos (h (idx, dist) (List.mem_cons_self _ _))]
    have := length_searchLoop_eq docs rest (fun p hp => h p (List.mem_cons_of_mem _ hp))
    simpa using this

/-- Every result the loop emits resolves an in-range position: its chunk is
a stored document and its similarity is the converted distance of one of
the given pairs. -/
theorem mem_searchLoop (docs : List Chunk) :
    ∀ (l : List (Nat × ℚ)) (r : SearchResult), r ∈ searchLoop docs l →
      ∃ p ∈ l, p.1 < docs.length ∧ r.similarity_score = simOfDist p.2 ∧ r.chunk ∈ docs
  | [], r, hr => by simp [searchLoop] at hr
  | (idx, dist) :: rest, r, hr => by
    rw [searchLoop] at hr
    by_cases h : idx < docs.length
    · rw [dif_pos h] at hr
      rcases List.mem_cons.mp hr with rfl | hr
      · exact ⟨(idx, dist), List.mem_cons_self _ _, h, rfl, List.get_mem docs idx h⟩
      · obtain ⟨p, hp, hplt, hsim, hchunk⟩ := mem_searchLoop docs rest r hr
        exact ⟨p, List.mem_cons_of_mem _ hp, hplt, hsim, hchunk⟩
    · rw [dif_neg h] at hr
      obtain ⟨p, hp, hplt, hsim, hchunk⟩ := mem_searchLoop docs rest r hr
      exact ⟨p, List.mem_cons_of_mem _ hp, hplt, hsim, hchunk⟩

/-- The conversion is antitone on non-negative distances. -/
theorem simOfDist_antitone (d e : ℚ) (hd : 0 ≤ d) (hde : d ≤ e) :
    simOfDist e ≤ simOfDist d := by
  unfold simOfDist
  apply one_div_le_one_div_of_le
  · linarith
  · linarith

/-- The conversion is strictly antitone on non-negative distances. -/
theorem simOfDist_strict_antitone (d e : ℚ) (hd : 0 ≤ d) (hde : d < e) :
    simOfDist e < simOfDist d := by
  unfold simOfDist
  apply one_div_lt_one_div_of_lt
  · linarith
  · linarith

/-- The loop turns an ascending-distance list of non-negative distances into
a descending-similarity result list. -/
theorem pairwise_searchLoop (docs : List Chunk) :
    ∀ l : List (Nat × ℚ), List.Pairwise (fun x y : Nat × ℚ => x.2 ≤ y.2) l →
      (∀ p ∈ l, 0 ≤ p.2) →
      List.Pairwise (fun r1 r2 : SearchResult =>
        r2.similarity_score ≤ r1.similarity_score) (searchLoop docs l)
  | [], _, _ => by simp [searchLoop]
  | (idx, dist) :: rest, h, hn => by
    obtain ⟨hhead, htail⟩ := List.pairwise_cons.mp h
    have htailn : ∀ p ∈ rest, 0 ≤ p.2 := fun p hp => hn p (List.mem_cons_of_mem _ hp)
    have hdist0 : 0 ≤ dist := hn (idx, dist) (List.mem_cons_self _ _)
    rw [searchLoop]
    by_cases hlt : idx < docs.length
    · rw [dif_pos hlt]
      refine List.pairwise_cons.mpr ⟨?_, pairwise_searchLoop docs rest htail htailn⟩
      intro r hr
      obtain ⟨p, hp, -, hsim, -⟩ := mem_searchLoop docs rest r hr
      rw [hsim]
      exact simOfDist_antitone dist p.2 hdist0 (hhead p hp)
    · rw [dif_neg hlt]
      exact pairwise_searchLoop docs rest htail htailn

/-- C5: on an aligned store, `search` with `k` greater than the index's
count returns exactly `count` results (no error — in the embedding the
function is total), and on an empty index `search` returns the empty list. -/
theorem C5_search_k_clamped (embed : String → Vec) (vs : VectorStore)
    (q : String) (k : Nat)
    (halign : vs.documents.length = vs.index.length)
    (hk : vs.index.length < k) :
    (vs.search embed q k).length = vs.index.length
    ∧ ∀ (vs' : VectorStore) (q' : String) (k' : Nat),
        vs'.index.length = 0 → vs'.search embed q' k' = [] := by
  constructor
  · by_cases hn : vs.index.length = 0
    · simp [VectorStore.search, hn]
    · unfold VectorStore.search
      rw [if_neg hn]
      have hall : ∀ p ∈ faissSearch vs.index (embed q) (min k vs.index.length),
          p.1 < vs.documents.length := by
        intro p hp
        rw [halign]
        exact (mem_faissSearch vs.index (embed q) (min k vs.index.length) p hp).1
      rw [length_searchLoop_eq vs.documents _ hall, length_faissSearch]
      omega
  · intro vs' q' k' h0
    simp [VectorStore.search, h0]

/-- C5 witness: a two-vector aligned store searched with `k = 5` returns
exactly two results, and empty stores return the empty list. -/
theorem C5_witness :
    ((VectorStore.mk 1 [[0], [2]]
        [⟨"ida", "alpha", ⟨"f.txt", "txt", "p", 0, 0, 1⟩⟩,
         ⟨"idb", "beta", ⟨"f.txt", "txt", "p", 1, 1, 2⟩⟩]).search
        (fun _ => [1]) "alpha" 5).length
      = (VectorStore.mk 1 [[0], [2]]
          [⟨"ida", "alpha", ⟨"f.txt", "txt", "p", 0, 0, 1⟩⟩,
           ⟨"idb", "beta", ⟨"f.txt", "txt", "p", 1, 1, 2⟩⟩]).index.length
    ∧ ∀ (vs' : VectorStore) (q' : String) (k' : Nat),
        vs'.index.length = 0 → vs'.search (fun _ => [1]) q' k' = [] :=
  C5_search_k_clamped (fun _ => [1])
    (VectorStore.mk 1 [[0], [2]]
      [⟨"ida", "alpha", ⟨"f.txt", "txt", "p", 0, 0, 1⟩⟩,
       ⟨"idb", "beta", ⟨"f.txt", "txt", "p", 1, 1, 2⟩⟩])
    "alpha" 5 rfl (by decide)

/-- C6: `similarity = 1/(1+distance)` is strictly decreasing on `[0, ∞)`
and a bijection from `[0, ∞)` onto `(0, 1]`; of two non-negative distances
the smaller gets the strictly larger similarity; and on every search result
list the similarities are descending, so the conversion never disturbs the
ascending-distance rank order the index established. -/
theorem C6_similarity_conversion :
    StrictAntiOn simOfDist (Set.Ici (0 : ℚ))
    ∧ Set.BijOn simOfDist (Set.Ici (0 : ℚ)) (Set.Ioc 0 1)
    ∧ (∀ d1 d2 : ℚ, 0 ≤ d1 → d1 < d2 → simOfDist d2 < simOfDist d1)
    ∧ ∀ (embed : String → Vec) (vs : VectorStore) (q : String) (k : Nat),
        List.Pairwise (fun r1 r2 : SearchResult =>
          r2.similarity_score ≤ r1.similarity_score) (vs.search embed q k) := by
  have hanti : StrictAntiOn simOfDist (Set.Ici (0 : ℚ)) := by
    intro a ha b hb hab
    exact simOfDist_strict_antitone a b ha hab
  refine ⟨hanti, ⟨?_, hanti.injOn, ?_⟩, ?_, ?_⟩
  · intro d hd
    have hd' : (0 : ℚ) ≤ d := hd
    constructor
    · unfold simOfDist
      positivity
    · show simOfDist d ≤ 1
      unfold simOfDist
      rw [div_le_one (by linarith)]
      linarith
  · intro y hy
    obtain ⟨hy0, hy1⟩ := hy
    refine ⟨1 / y - 1, ?_, ?_⟩
    · show (0 : ℚ) ≤ 1 / y - 1
      have : (1 : ℚ) ≤ 1 / y := by
        rw [le_div_iff₀ hy0]
        linarith
      linarith
    · show simOfDist (1 / y - 1) = y
      unfold simOfDist
      rw [show (1 : ℚ) + (1 / y - 1) = 1 / y by ring, one_div_one_div]
  · intro d1 d2 h1 h12
    exact simOfDist_strict_antitone d1 d2 h1 h12
  · intro embed vs q k
    by_cases hn : vs.index.length = 0
    · simp [VectorStore.search, hn]
    · unfold VectorStore.search
      rw [if_neg hn]
      exact pairwise_searchLoop vs.documents _
        (pairwise_faissSearch vs.index (embed q) (min k vs.index.length))
        (fun p hp => (mem_faissSearch vs.index (embed q) _ p hp).2)

/-- C10: `search` is total on every store, aligned or not: it never returns
more than `min k ntotal` results, every returned chunk really is a stored
document (positions at or beyond the documents list's length are silently
dropped before lookup, so no out-of-range access exists), and a
desynchronized store — more vectors than documents — can make it return
strictly fewer than `min k ntotal` results. -/
theorem C10_search_total_on_desync (embed : String → Vec) (vs : VectorStore)
    (q : String) (k : Nat) :
    (vs.search embed q k).length ≤ min k vs.index.length
    ∧ (∀ r ∈ vs.search embed q k, r.chunk ∈ vs.documents)
    ∧ ∃ (vs' : VectorStore) (q' : String) (k' : Nat),
        vs'.documents.length < vs'.index.length
        ∧ (vs'.search embed q' k').length < min k' vs'.index.length := by
  refine ⟨?_, ?_, ?_⟩
  · by_cases hn : vs.index.length = 0
    · simp [VectorStore.search, hn]
    · unfold VectorStore.search
      rw [if_neg hn]
      have h1 := length_searchLoop_le vs.documents
        (faissSearch vs.index (embed q) (min k vs.index.length))
      rw [length_faissSearch] at h1
      show (searchLoop vs.documents
          (faissSearch vs.index (embed q) (min k vs.index.length))).length
        ≤ min k vs.index.length
      omega
  · intro r hr
    by_cases hn : vs.index.length = 0
    · simp [VectorStore.search, hn] at hr
    · unfold VectorStore.search at hr
      rw [if_neg hn] at hr
      obtain ⟨-, -, -, -, hchunk⟩ := mem_searchLoop vs.documents _ r hr
      exact hchunk
  · refine ⟨VectorStore.mk 1 [[], []] [], "x", 1, by simp, ?_⟩
    show ((VectorStore.mk 1 [[], []] []).search embed "x" 1).length < min 1 2
    unfold VectorStore.search
    rw [if_neg (by simp)]
    rw [searchLoop_nil_docs]
    simp
